import Mathlib

/-
Verification of the `ScaledInteger` fixed-point decimal value type.

The TypeScript class stores an integer `_value` (the magnitude) and a
non-negative integer `_scale`; the represented decimal number is
`_value / 10 ^ _scale`.  We embed the class shallowly: the mutable object
becomes an immutable structure, each mutating method becomes a function
returning the new state, and each `throw` becomes an `Except.error` carrying
a constructor named after the thrown message.  JavaScript numbers are
modelled as exact integers (`Int`); the `Number.isSafeInteger` guard becomes
the predicate `|n| ≤ 2^53 - 1`.  JavaScript `%` on integers is truncating
remainder (`Int.tmod`), and the divisions performed by the class are exact,
so `Int.tdiv` models them faithfully.
-/

/-- Errors thrown by the class, one constructor per thrown message. -/
inductive Err where
  | unsafeIntegerValue        -- 'unsafe integer value'
  | scaleMustBePositive       -- 'scale must be a positive integer'
  | invalidDecimalString      -- 'invalid decimal string'
  | otherScaleMustBeGreater   -- 'other scale must be greater'
  | additionOverflow          -- 'addition overflow'
  | subtractionOverflow       -- 'subtraction overflow'
  | multiplicationOverflow    -- 'multiplication overflow'
deriving DecidableEq, Repr

/-- Model of `Number.isSafeInteger` on integer inputs: `|n| ≤ 2^53 - 1`. -/
def isSafeInteger (n : Int) : Bool :=
  n.natAbs ≤ 2 ^ 53 - 1

/-- The `ScaledInteger` state: fields `_value` and `_scale`.  The scale is a
`Nat` because the validated constructor rejects negative scales; operations
below only ever produce non-negative scales from non-negative ones. -/
structure ScaledInteger where
  value : Int
  scale : Nat
deriving DecidableEq, Repr

/-- Model of `new ScaledInteger(value, scale)`: validates that both fields
are safe integers and that the scale is non-negative. -/
def ScaledInteger.construct (value : Int) (scale : Int) : Except Err ScaledInteger :=
  if ¬ isSafeInteger value then .error .unsafeIntegerValue
  else if ¬ isSafeInteger scale then .error .unsafeIntegerValue
  else if scale < 0 then .error .scaleMustBePositive
  else .ok ⟨value, scale.toNat⟩

/-- Model of `ScaledInteger.deserialize`. -/
def ScaledInteger.deserialize (value : Int) (scale : Int) : Except Err ScaledInteger :=
  ScaledInteger.construct value scale

/-- Model of the private `_unsafelyGetRelativeValue(otherScale)`; all callers
pass `otherScale ≥ _scale`, so the exponent is the Nat difference. -/
def ScaledInteger.unsafelyGetRelativeValue (x : ScaledInteger) (otherScale : Nat) : Int :=
  x.value * 10 ^ (otherScale - x.scale)

/-- Model of the public `getRelativeValue(other)`.  The narrowing branch
multiplies by a negative power of ten, producing a fraction in JavaScript,
so the result type is `ℚ`. -/
def ScaledInteger.getRelativeValue (x : ScaledInteger) (other : ScaledInteger) : Except Err ℚ :=
  if x.scale < other.scale then .error .otherScaleMustBeGreater
  else .ok ((x.value : ℚ) * (10 : ℚ) ^ ((other.scale : ℤ) - (x.scale : ℤ)))

/-- Model of the static `normalizedValues(a, b)`. -/
def ScaledInteger.normalizedValues (a b : ScaledInteger) : (Int × Int) × Nat :=
  if a.scale < b.scale then
    ((a.unsafelyGetRelativeValue b.scale, b.value), b.scale)
  else
    ((a.value, b.unsafelyGetRelativeValue a.scale), a.scale)

/-- Model of the static `equal(a, b)`. -/
def ScaledInteger.equal (a b : ScaledInteger) : Bool :=
  if a.scale > b.scale then a.value == b.unsafelyGetRelativeValue a.scale
  else a.unsafelyGetRelativeValue b.scale == b.value

/-- Model of the static `compare(a, b)`, returning -1, 0 or 1. -/
def ScaledInteger.compare (a b : ScaledInteger) : Int :=
  if a.scale > b.scale then
    let aValue := a.value
    let bValue := b.unsafelyGetRelativeValue a.scale
    if aValue < bValue then -1 else if aValue = bValue then 0 else 1
  else
    let aValue := a.unsafelyGetRelativeValue b.scale
    let bValue := b.value
    if aValue < bValue then -1 else if aValue = bValue then 0 else 1

/-- Model of `increaseScale(scaleIncrement)`: note that the source performs
no overflow check here; the fields are assigned directly. -/
def ScaledInteger.increaseScale (x : ScaledInteger) (scaleIncrement : Nat) : ScaledInteger :=
  ⟨x.value * 10 ^ scaleIncrement, x.scale + scaleIncrement⟩

/-- Model of `transformScale(newScale)`.  The widening branch delegates to
`increaseScale` and returns the object (`none` here); the narrowing branch
returns the truncated remainder (`some r`) together with the new state.
JavaScript `%` is truncating remainder, hence `Int.tmod`; the division is
exact, so `Math.floor` of it is `Int.tdiv`. -/
def ScaledInteger.transformScale (x : ScaledInteger) (newScale : Nat) :
    Option Int × ScaledInteger :=
  if newScale > x.scale then (none, x.increaseScale (newScale - x.scale))
  else
    let truncatedScale := x.scale - newScale
    let truncated := x.value.tmod (10 ^ truncatedScale)
    (some truncated, ⟨(x.value - truncated).tdiv (10 ^ truncatedScale), newScale⟩)

/-- The loop of `trimScale`: starting from digit index `i`, with `fuel`
remaining iterations (the loop condition is `i < _scale`, so the fuel is
`_scale - i`), return the final value of `i`. -/
def trimLoop (v : Int) : Nat → Nat → Nat
  | 0, i => i
  | fuel + 1, i => if v.tmod (10 ^ (i + 1)) ≠ 0 then i else trimLoop v fuel (i + 1)

/-- Model of `trimScale()`: strips trailing zero digits of the magnitude,
decreasing the scale accordingly.  The division is exact on every path the
loop can produce. -/
def ScaledInteger.trimScale (x : ScaledInteger) : ScaledInteger :=
  let i := trimLoop x.value x.scale 0
  ⟨x.value.tdiv (10 ^ i), x.scale - i⟩

/-- Model of `normalizeTo(other)`: widen the receiver to the other's scale
when the receiver's scale is smaller. -/
def ScaledInteger.normalizeTo (x : ScaledInteger) (other : ScaledInteger) : ScaledInteger :=
  if x.scale < other.scale then (x.transformScale other.scale).2 else x

/-- Model of `add(other)`: normalize, sum, check the safe range. -/
def ScaledInteger.add (a b : ScaledInteger) : Except Err ScaledInteger :=
  let p := ScaledInteger.normalizedValues a b
  let value := p.1.1 + p.1.2
  if ¬ isSafeInteger value then .error .additionOverflow
  else .ok ⟨value, p.2⟩

/-- Model of `subtract(other)`: the source body is identical to `add` apart
from the error message — in particular it also computes `lhs + rhs`. -/
def ScaledInteger.subtract (a b : ScaledInteger) : Except Err ScaledInteger :=
  let p := ScaledInteger.normalizedValues a b
  let value := p.1.1 + p.1.2
  if ¬ isSafeInteger value then .error .subtractionOverflow
  else .ok ⟨value, p.2⟩

/-- Model of `multiply(other)`: the source body is identical to `add` apart
from the error message — it also computes `lhs + rhs`. -/
def ScaledInteger.multiply (a b : ScaledInteger) : Except Err ScaledInteger :=
  let p := ScaledInteger.normalizedValues a b
  let value := p.1.1 + p.1.2
  if ¬ isSafeInteger value then .error .multiplicationOverflow
  else .ok ⟨value, p.2⟩

/-- Model of `clone()`. -/
def ScaledInteger.clone (x : ScaledInteger) : ScaledInteger :=
  ⟨x.value, x.scale⟩

/-- The loop of the static `maximumScale(first, ...values)`: the index starts
at 1 (skipping `values[0]`), runs while `i < values.length`, and the final
index together with the running maximum is returned.  The `getD` default is
unreachable because the loop guard keeps `i` in bounds. -/
def maximumScaleLoop (values : List ScaledInteger) :
    Nat → Nat → ScaledInteger → Nat × ScaledInteger
  | 0, i, mx => (i, mx)
  | fuel + 1, i, mx =>
    if i < values.length then
      let item := (values.get? i).getD mx
      if item.scale > mx.scale then maximumScaleLoop values fuel (i + 1) item
      else maximumScaleLoop values fuel (i + 1) mx
    else (i, mx)

/-- Model of the static `maximumScale(first, ...values)`: returns the pair
`[i, max]` where `i` is the loop counter's final value. -/
def ScaledInteger.maximumScale (first : ScaledInteger) (values : List ScaledInteger) :
    Nat × ScaledInteger :=
  maximumScaleLoop values values.length 1 first

/-- Model of the static `normalize(...values)`: computes
`maximumScale(values[0], ...values.slice(1))`, then maps each element,
pushing `values[i]` untouched when `i` equals the returned index and
otherwise pushing `clone().normalizeTo(max)`. -/
def ScaledInteger.normalize : List ScaledInteger → List ScaledInteger
  | [] => []
  | v0 :: rest =>
    let m := ScaledInteger.maximumScale v0 rest
    (v0 :: rest).enum.map fun p =>
      if p.1 = m.1 then p.2 else (p.2.clone.normalizeTo m.2)

/-- Model of `toUnits()`: `(major, |minor|)` with the truncating remainder. -/
def ScaledInteger.toUnits (x : ScaledInteger) : Int × Int :=
  let minor := x.value.tmod (10 ^ x.scale)
  ((x.value - minor).tdiv (10 ^ x.scale), (minor.natAbs : Int))

/-- Model of `hasSubUnits()`. -/
def ScaledInteger.hasSubUnits (x : ScaledInteger) : Bool :=
  x.value.tmod (10 ^ x.scale) != 0

/-- Model of `String.prototype.padStart(n, c)`. -/
def padStart (s : String) (n : Nat) (c : Char) : String :=
  ⟨List.replicate (n - s.data.length) c ++ s.data⟩

/-- Model of `toString()`. -/
def ScaledInteger.toString (x : ScaledInteger) : String :=
  let u := x.toUnits
  if u.2 = 0 then Int.repr u.1
  else
    let zerosign := if u.1 = 0 ∧ x.value < 0 then "-" else ""
    zerosign ++ Int.repr u.1 ++ "." ++ padStart (Int.repr u.2) x.scale '0'

/-- The class invariant guaranteed by the validated constructor: both stored
fields are safe integers (non-negativity of the scale is carried by its
type). -/
def ScaledInteger.Valid (x : ScaledInteger) : Prop :=
  isSafeInteger x.value = true ∧ isSafeInteger (x.scale : Int) = true

instance (x : ScaledInteger) : Decidable x.Valid := by
  unfold ScaledInteger.Valid; infer_instance

/-- Character class `[0-9]` of the two regexes. -/
def isDigitChar (c : Char) : Bool :=
  48 ≤ c.toNat && c.toNat ≤ 57

/-- Model of the unary `+` conversion on an all-digit string: its decimal
value, accumulated left to right. -/
def digitsToNat (cs : List Char) : Nat :=
  cs.foldl (fun a c => a * 10 + (c.toNat - 48)) 0

/-- Model of `trimStart(str, char)` from `util`: drop the longest prefix of
occurrences of `char`. -/
def trimStart (cs : List Char) (ch : Char) : List Char :=
  cs.dropWhile (fun c => c = ch)

/-- Model of `trimEnd(str, char)` from `util`: drop the longest suffix of
occurrences of `char`. -/
def trimEnd (cs : List Char) (ch : Char) : List Char :=
  (cs.reverse.dropWhile (fun c => c = ch)).reverse

/-- Model of the `|| '0'` fallback applied to the trimmed digit groups. -/
def orZero (cs : List Char) : List Char :=
  if cs = [] then ['0'] else cs

/-- The regex groups of a successful match: sign, integer digits, and the
optional fractional digits. -/
structure DecGroups where
  sign : List Char
  major : List Char
  minor : Option (List Char)
deriving DecidableEq, Repr

/-- The leading `([-+]?)` group: consume one sign character when present. -/
def splitSign : List Char → List Char × List Char
  | [] => ([], [])
  | c :: cs => if c = '-' ∨ c = '+' then ([c], cs) else ([], c :: cs)

/-- Greedy `[0-9]*`: the longest digit prefix, and the rest. -/
def takeDigits : List Char → List Char × List Char
  | [] => ([], [])
  | c :: cs =>
    if isDigitChar c then
      let p := takeDigits cs
      (c :: p.1, p.2)
    else ([], c :: cs)

/-- Matcher for the anchored strict regex
`^([-+]?)([0-9]+)(\.([0-9]+))?$`.  The match is deterministic: the sign
group, the greedy digit groups and the literal dot leave no backtracking. -/
def strictMatch (cs : List Char) : Option DecGroups :=
  let p := splitSign cs
  let q := takeDigits p.2
  if q.1 = [] then none
  else
    match q.2 with
    | [] => some ⟨p.1, q.1, none⟩
    | c :: cs3 =>
      if c = '.' then
        let r := takeDigits cs3
        if r.1 = [] then none
        else if r.2 = [] then some ⟨p.1, q.1, some r.1⟩ else none
      else none

/-- Matcher for the anchored lax regex `^([-+]?)([0-9]*)(\.([0-9]*))?$`. -/
def laxMatch (cs : List Char) : Option DecGroups :=
  let p := splitSign cs
  let q := takeDigits p.2
  match q.2 with
  | [] => some ⟨p.1, q.1, none⟩
  | c :: cs3 =>
    if c = '.' then
      let r := takeDigits cs3
      if r.2 = [] then some ⟨p.1, q.1, some r.1⟩ else none
    else none

/-- The shared tail of `parse`/`parseLax` after the groups are known: trim
the groups, convert to integers, and construct with the given scale. -/
def parseWithGroups (g : DecGroups) (scale : Nat) (minor : Nat) : Except Err ScaledInteger :=
  let majorStr := orZero (trimStart g.major '0')
  let major : Int := digitsToNat majorStr
  let value : Int := major * 10 ^ scale + (minor : Int)
  ScaledInteger.construct (if g.sign = ['-'] then -value else value) scale

/-- Model of the static `parse(str)` (strict grammar). -/
def ScaledInteger.parse (s : String) : Except Err ScaledInteger :=
  match strictMatch s.data with
  | none => .error .invalidDecimalString
  | some g =>
    let minorStr := orZero (trimEnd (g.minor.getD []) '0')
    let minor := digitsToNat minorStr
    let scale := if minor = 0 then 0 else minorStr.length
    parseWithGroups g scale minor

/-- Model of the static `parseLax(str)` (lax grammar): identical to `parse`
except that the scale is `minorStr.length` unconditionally. -/
def ScaledInteger.parseLax (s : String) : Except Err ScaledInteger :=
  match laxMatch s.data with
  | none => .error .invalidDecimalString
  | some g =>
    let minorStr := orZero (trimEnd (g.minor.getD []) '0')
    let minor := digitsToNat minorStr
    let scale := minorStr.length
    parseWithGroups g scale minor

deriving instance DecidableEq for Except

/-- Helper: a successful construction returns exactly the requested fields
and implies that all the validation checks passed. -/
theorem construct_ok {v s : Int} {x : ScaledInteger}
    (h : ScaledInteger.construct v s = .ok x) :
    x = ⟨v, s.toNat⟩ ∧ isSafeInteger v = true ∧ isSafeInteger s = true ∧ 0 ≤ s := by
  unfold ScaledInteger.construct at h
  split at h
  · exact absurd h (by simp)
  · split at h
    · exact absurd h (by simp)
    · split at h
      · exact absurd h (by simp)
      · simp_all

/-- Helper: construction never reports a parse error. -/
theorem construct_ne_parse_error (v s : Int) :
    ScaledInteger.construct v s ≠ .error .invalidDecimalString := by
  unfold ScaledInteger.construct
  split
  · simp
  · split
    · simp
    · split <;> simp

/-- Claim C1 (code bug): `subtract` is claimed to negate the normalized
right-hand value before summing, so that the result is `value(a) - value(b)`;
the source instead computes `lhs + rhs` exactly like `add`, so
`5.subtract(3)` yields magnitude `8`, not `2`. -/
theorem subtract_performs_addition :
    ScaledInteger.subtract ⟨5, 0⟩ ⟨3, 0⟩ = .ok ⟨8, 0⟩ ∧ (8 : ℤ) ≠ 5 - 3 := by
  decide

/-- Claim C2 (code bug): the claim says `getRelativeValue` succeeds exactly
when the target scale is at least the receiver's scale (widening).  The
source's guard is reversed: with target scale 1 > receiver scale 0 it throws
`other scale must be greater`, and with target scale 0 < receiver scale 1 it
silently narrows, returning the fraction `15 * 10^(0-1) = 3/2`. -/
theorem getRelativeValue_direction_reversed :
    ScaledInteger.getRelativeValue ⟨1, 0⟩ ⟨0, 1⟩ = .error .otherScaleMustBeGreater
    ∧ ScaledInteger.getRelativeValue ⟨15, 1⟩ ⟨0, 0⟩ = .ok (3 / 2 : ℚ) := by
  constructor
  · rfl
  · unfold ScaledInteger.getRelativeValue
    norm_num

/-- Claim C3 (counterexample): the claim says `increaseScale` fails with an
overflow error exactly when the new magnitude leaves the safe-integer range.
The source performs no such check: at the maximal safe magnitude and k = 1 it
returns normally with an out-of-range magnitude. -/
theorem increaseScale_overflow_unchecked :
    (ScaledInteger.increaseScale ⟨2 ^ 53 - 1, 0⟩ 1).value = ((2 : ℤ) ^ 53 - 1) * 10
    ∧ isSafeInteger (((2 : ℤ) ^ 53 - 1) * 10) = false := by
  decide

/-- Claim C3 (amended): `increaseScale(k)` multiplies the magnitude by `10^k`
and adds `k` to the scale, preserving the represented decimal value; it never
fails, performing no overflow check on the new magnitude. -/
theorem increaseScale_spec (x : ScaledInteger) (k : Nat) :
    (x.increaseScale k).value = x.value * 10 ^ k
    ∧ (x.increaseScale k).scale = x.scale + k
    ∧ ((x.increaseScale k).value : ℚ) / 10 ^ (x.increaseScale k).scale
        = (x.value : ℚ) / 10 ^ x.scale := by
  refine ⟨rfl, rfl, ?_⟩
  show ((x.value * 10 ^ k : ℤ) : ℚ) / 10 ^ (x.scale + k) = (x.value : ℚ) / 10 ^ x.scale
  push_cast
  rw [pow_add]
  rw [div_eq_div_iff (by positivity) (by positivity)]
  ring

/-- Claim C6: `multiply` normalizes the operands and then adds the
normalized magnitudes, making it extensionally equal to `add` (same
successful results, failure exactly when `add` fails); concretely,
`2.multiply(3)` yields `5`, not `6`. -/
theorem multiply_is_add :
    (∀ a b c : ScaledInteger, a.multiply b = .ok c ↔ a.add b = .ok c)
    ∧ (∀ a b : ScaledInteger,
        a.multiply b = .error .multiplicationOverflow ↔ a.add b = .error .additionOverflow)
    ∧ ScaledInteger.multiply ⟨2, 0⟩ ⟨3, 0⟩ = .ok ⟨5, 0⟩ ∧ (5 : ℤ) ≠ 2 * 3 := by
  refine ⟨fun a b c => ?_, fun a b => ?_, by decide, by decide⟩ <;>
    · unfold ScaledInteger.multiply ScaledInteger.add
      dsimp only
      split <;> simp

/-- Witness for `multiply_is_add` at a concrete input. -/
theorem multiply_is_add_witness :
    ScaledInteger.multiply ⟨2, 0⟩ ⟨3, 0⟩ = .ok ⟨5, 0⟩ ↔ ScaledInteger.add ⟨2, 0⟩ ⟨3, 0⟩ = .ok ⟨5, 0⟩ :=
  multiply_is_add.1 ⟨2, 0⟩ ⟨3, 0⟩ ⟨5, 0⟩

/-- Claim C10 (code bug): the static `normalize` is claimed to return all
elements at the maximum input scale.  Because `maximumScale` starts scanning
at index 1 of the already-shifted rest list and returns the loop counter as
the "index of the maximum", `normalize` leaves elements unwidened: on the
inputs `(1, scale 0), (11, scale 1)` both elements come back unchanged and
the first keeps scale 0 instead of the maximum scale 1. -/
theorem normalize_skips_elements :
    ScaledInteger.normalize [⟨1, 0⟩, ⟨11, 1⟩] = [⟨1, 0⟩, ⟨11, 1⟩]
    ∧ (ScaledInteger.normalize [⟨1, 0⟩, ⟨11, 1⟩]).map ScaledInteger.scale = [0, 1] := by
  decide

/-- Helper: subtracting the truncating remainder and then t-dividing is the
plain t-division. -/
theorem sub_tmod_tdiv (a m : Int) (hm : m ≠ 0) :
    (a - a.tmod m).tdiv m = a.tdiv m := by
  have h := Int.tdiv_add_tmod a m
  have : a - a.tmod m = m * a.tdiv m := by omega
  rw [this, Int.mul_tdiv_cancel_left _ hm]

/-- Claim C8: for `0 ≤ newScale ≤ scale`, `transformScale` returns the
truncating remainder `r = magnitude tmod 10^(scale-newScale)`, sets the
magnitude to `(magnitude - r) / 10^(scale-newScale)` and the scale to
`newScale`, and a subsequent `increaseScale` by the same amount restores the
original state exactly when `r = 0`. -/
theorem transformScale_roundtrip (x : ScaledInteger) (newScale : Nat)
    (h : newScale ≤ x.scale) :
    (x.transformScale newScale).1 = some (x.value.tmod (10 ^ (x.scale - newScale)))
    ∧ (x.transformScale newScale).2.value
        = (x.value - x.value.tmod (10 ^ (x.scale - newScale))).tdiv (10 ^ (x.scale - newScale))
    ∧ (x.transformScale newScale).2.scale = newScale
    ∧ ((x.transformScale newScale).2.increaseScale (x.scale - newScale) = x
        ↔ x.value.tmod (10 ^ (x.scale - newScale)) = 0) := by
  have hng : ¬ (newScale > x.scale) := not_lt.mpr h
  unfold ScaledInteger.transformScale
  rw [if_neg hng]
  refine ⟨rfl, rfl, rfl, ?_⟩
  set d := x.scale - newScale with hd
  set r := x.value.tmod (10 ^ d) with hr
  have hm : (10 : ℤ) ^ d ≠ 0 := by positivity
  unfold ScaledInteger.increaseScale
  dsimp only
  rw [sub_tmod_tdiv _ _ hm]
  constructor
  · intro he
    have hv : x.value.tdiv (10 ^ d) * 10 ^ d = x.value := congrArg ScaledInteger.value he
    rw [mul_comm] at hv
    have := Int.tdiv_add_tmod x.value (10 ^ d)
    omega
  · intro hr0
    have hdvd : (10 : ℤ) ^ d ∣ x.value := by
      have := Int.tdiv_add_tmod x.value (10 ^ d)
      exact ⟨x.value.tdiv (10 ^ d), by omega⟩
    have hv : x.value.tdiv (10 ^ d) * 10 ^ d = x.value := Int.tdiv_mul_cancel hdvd
    have hs : newScale + d = x.scale := by omega
    calc (⟨x.value.tdiv (10 ^ d) * 10 ^ d, newScale + d⟩ : ScaledInteger)
        = ⟨x.value, x.scale⟩ := by rw [hv, hs]
      _ = x := rfl

/-- Witness for `transformScale_roundtrip`: the spec's own example
`123.456 → transformScale(1)` returns remainder 56 and leaves `1234` at
scale 1; re-increasing does not restore the original since `56 ≠ 0`. -/
theorem transformScale_roundtrip_witness :
    (ScaledInteger.transformScale ⟨123456, 3⟩ 1).1 = some ((123456 : ℤ).tmod (10 ^ (3 - 1)))
    ∧ (ScaledInteger.transformScale ⟨123456, 3⟩ 1).2.value
        = ((123456 : ℤ) - (123456 : ℤ).tmod (10 ^ (3 - 1))).tdiv (10 ^ (3 - 1))
    ∧ (ScaledInteger.transformScale ⟨123456, 3⟩ 1).2.scale = 1
    ∧ ((ScaledInteger.transformScale ⟨123456, 3⟩ 1).2.increaseScale (3 - 1) = ⟨123456, 3⟩
        ↔ (123456 : ℤ).tmod (10 ^ (3 - 1)) = 0) :=
  transformScale_roundtrip ⟨123456, 3⟩ 1 (by decide)

/-- Claim C5: when `add` succeeds, the result carries the common scale
`max(a.scale, b.scale)` and its decimal value is the exact rational sum of
the operands' decimal values; the spec's concrete example
`parse("1.74291456") + parse("-0.53168294")`, trimmed and rendered, is
`"1.21123162"`. -/
theorem add_exact :
    (∀ a b c : ScaledInteger, a.add b = .ok c →
      c.scale = max a.scale b.scale
      ∧ (c.value : ℚ) / 10 ^ c.scale
          = (a.value : ℚ) / 10 ^ a.scale + (b.value : ℚ) / 10 ^ b.scale)
    ∧ (do
        let a ← ScaledInteger.parse "1.74291456"
        let b ← ScaledInteger.parse "-0.53168294"
        let c ← a.add b
        pure (ScaledInteger.toString c.trimScale) : Except Err String) = .ok "1.21123162" := by
  constructor
  · intro a b c h
    unfold ScaledInteger.add at h
    dsimp only at h
    split at h
    · exact absurd h (by simp)
    · rw [Except.ok.injEq] at h
      subst h
      unfold ScaledInteger.normalizedValues ScaledInteger.unsafelyGetRelativeValue
      by_cases hab : a.scale < b.scale
      · rw [if_pos hab]
        dsimp only
        refine ⟨by omega, ?_⟩
        have hpow : (10 : ℚ) ^ b.scale = 10 ^ (b.scale - a.scale) * 10 ^ a.scale := by
          rw [← pow_add]
          congr 1
          omega
        push_cast
        rw [div_add_div _ _ (by positivity) (by positivity),
          div_eq_div_iff (by positivity) (by positivity), hpow]
        ring
      · rw [if_neg hab]
        dsimp only
        refine ⟨by omega, ?_⟩
        have hpow : (10 : ℚ) ^ a.scale = 10 ^ (a.scale - b.scale) * 10 ^ b.scale := by
          rw [← pow_add]
          congr 1
          omega
        push_cast
        rw [div_add_div _ _ (by positivity) (by positivity),
          div_eq_div_iff (by positivity) (by positivity), hpow]
        ring
  · decide

/-- Witness for `add_exact` at the concrete operands of the spec example. -/
theorem add_exact_witness :
    ScaledInteger.add ⟨174291456, 8⟩ ⟨-53168294, 8⟩ = .ok ⟨121123162, 8⟩
    ∧ ((121123162 : ℤ) : ℚ) / 10 ^ (8 : ℕ)
        = ((174291456 : ℤ) : ℚ) / 10 ^ (8 : ℕ) + (((-53168294 : ℤ)) : ℚ) / 10 ^ (8 : ℕ) :=
  ⟨by decide, (add_exact.1 ⟨174291456, 8⟩ ⟨-53168294, 8⟩ ⟨121123162, 8⟩ (by decide)).2⟩

/-- Helper: safety of a cast natural number is a plain bound. -/
theorem isSafeInteger_natCast (n : Nat) :
    isSafeInteger (n : Int) = true ↔ n ≤ 2 ^ 53 - 1 := by
  unfold isSafeInteger
  simp

/-- Helper: a successful construction yields a valid instance. -/
theorem construct_valid {v s : Int} {x : ScaledInteger}
    (h : ScaledInteger.construct v s = .ok x) : x.Valid := by
  obtain ⟨rfl, hv, hs, hpos⟩ := construct_ok h
  refine ⟨hv, ?_⟩
  show isSafeInteger ((s.toNat : Nat) : Int) = true
  rw [isSafeInteger_natCast]
  unfold isSafeInteger at hs
  simp only [decide_eq_true_eq] at hs
  omega

/-- Helper: the common scale returned by `normalizedValues` is one of the two
input scales. -/
theorem normalizedValues_scale (a b : ScaledInteger) :
    (ScaledInteger.normalizedValues a b).2 = a.scale
    ∨ (ScaledInteger.normalizedValues a b).2 = b.scale := by
  unfold ScaledInteger.normalizedValues
  split <;> simp

/-- Claim C4 (counterexample): the claim says every listed operation
preserves the invariant; `increaseScale` does not — from a valid instance at
the maximal safe magnitude it produces an instance whose magnitude is outside
the safe range, without failing. -/
theorem invariant_not_preserved_by_increaseScale :
    (⟨2 ^ 53 - 1, 0⟩ : ScaledInteger).Valid
    ∧ ¬ (ScaledInteger.increaseScale ⟨2 ^ 53 - 1, 0⟩ 2).Valid := by
  decide

/-- Claim C4 (amended): the constructor validates both fields (violations
fail, they are not clamped), and parsing, `add`, `subtract`, `multiply`,
`trimScale` and narrowing `transformScale` all preserve the invariant;
the widening operations (`increaseScale`, widening `transformScale`,
`normalizeTo`) are excluded since they skip the magnitude check. -/
theorem invariant_preservation :
    (∀ (v s : Int) (x : ScaledInteger), ScaledInteger.construct v s = .ok x → x.Valid)
    ∧ (∀ v s : Int, (isSafeInteger v = false ∨ isSafeInteger s = false ∨ s < 0) →
        ∃ e, ScaledInteger.construct v s = .error e)
    ∧ (∀ (str : String) (x : ScaledInteger), ScaledInteger.parse str = .ok x → x.Valid)
    ∧ (∀ (str : String) (x : ScaledInteger), ScaledInteger.parseLax str = .ok x → x.Valid)
    ∧ (∀ a b c : ScaledInteger, a.Valid → b.Valid → a.add b = .ok c → c.Valid)
    ∧ (∀ a b c : ScaledInteger, a.Valid → b.Valid → a.subtract b = .ok c → c.Valid)
    ∧ (∀ a b c : ScaledInteger, a.Valid → b.Valid → a.multiply b = .ok c → c.Valid)
    ∧ (∀ x : ScaledInteger, x.Valid → x.trimScale.Valid)
    ∧ (∀ (x : ScaledInteger) (n : Nat), x.Valid → n ≤ x.scale → (x.transformScale n).2.Valid) := by
  refine ⟨fun v s x h => construct_valid h, ?_, ?_, ?_, ?_, ?_, ?_, ?_, ?_⟩
  · intro v s h
    unfold ScaledInteger.construct
    by_cases h1 : isSafeInteger v = true
    · rw [if_neg (not_not_intro h1)]
      by_cases h2 : isSafeInteger s = true
      · rw [if_neg (not_not_intro h2)]
        have h3 : s < 0 := by
          rcases h with h | h | h
          · rw [h1] at h
            cases h
          · rw [h2] at h
            cases h
          · exact h
        rw [if_pos h3]
        exact ⟨_, rfl⟩
      · rw [if_pos h2]
        exact ⟨_, rfl⟩
    · rw [if_pos h1]
      exact ⟨_, rfl⟩
  · intro str x h
    unfold ScaledInteger.parse at h
    split at h
    · exact absurd h (by simp)
    · unfold parseWithGroups at h
      exact construct_valid h
  · intro str x h
    unfold ScaledInteger.parseLax at h
    split at h
    · exact absurd h (by simp)
    · unfold parseWithGroups at h
      exact construct_valid h
  · intro a b c ha hb h
    unfold ScaledInteger.add at h
    dsimp only at h
    split at h
    · exact absurd h (by simp)
    · rename_i hsafe
      rw [Except.ok.injEq] at h
      subst h
      refine ⟨by simpa using hsafe, ?_⟩
      rcases normalizedValues_scale a b with hs | hs <;> rw [show (⟨_, (ScaledInteger.normalizedValues a b).2⟩ : ScaledInteger).scale = (ScaledInteger.normalizedValues a b).2 from rfl, hs]
      · exact ha.2
      · exact hb.2
  · intro a b c ha hb h
    unfold ScaledInteger.subtract at h
    dsimp only at h
    split at h
    · exact absurd h (by simp)
    · rename_i hsafe
      rw [Except.ok.injEq] at h
      subst h
      refine ⟨by simpa using hsafe, ?_⟩
      rcases normalizedValues_scale a b with hs | hs <;> rw [show (⟨_, (ScaledInteger.normalizedValues a b).2⟩ : ScaledInteger).scale = (ScaledInteger.normalizedValues a b).2 from rfl, hs]
      · exact ha.2
      · exact hb.2
  · intro a b c ha hb h
    unfold ScaledInteger.multiply at h
    dsimp only at h
    split at h
    · exact absurd h (by simp)
    · rename_i hsafe
      rw [Except.ok.injEq] at h
      subst h
      refine ⟨by simpa using hsafe, ?_⟩
      rcases normalizedValues_scale a b with hs | hs <;> rw [show (⟨_, (ScaledInteger.normalizedValues a b).2⟩ : ScaledInteger).scale = (ScaledInteger.normalizedValues a b).2 from rfl, hs]
      · exact ha.2
      · exact hb.2
  · intro x hx
    unfold ScaledInteger.trimScale
    dsimp only
    constructor
    · show isSafeInteger (x.value.tdiv (10 ^ trimLoop x.value x.scale 0)) = true
      unfold isSafeInteger
      simp only [decide_eq_true_eq]
      rw [Int.natAbs_tdiv]
      have h2 := hx.1
      unfold isSafeInteger at h2
      simp only [decide_eq_true_eq] at h2
      calc x.value.natAbs.div ((10 : Int) ^ trimLoop x.value x.scale 0).natAbs
          ≤ x.value.natAbs := Nat.div_le_self _ _
        _ ≤ 2 ^ 53 - 1 := h2
    · show isSafeInteger ((x.scale - trimLoop x.value x.scale 0 : Nat) : Int) = true
      rw [isSafeInteger_natCast]
      have h2 := hx.2
      rw [isSafeInteger_natCast] at h2
      omega
  · intro x n hx hn
    have hng : ¬ (n > x.scale) := not_lt.mpr hn
    unfold ScaledInteger.transformScale
    rw [if_neg hng]
    dsimp only
    constructor
    · show isSafeInteger ((x.value - x.value.tmod (10 ^ (x.scale - n))).tdiv (10 ^ (x.scale - n))) = true
      rw [sub_tmod_tdiv _ _ (by positivity)]
      unfold isSafeInteger
      simp only [decide_eq_true_eq]
      rw [Int.natAbs_tdiv]
      have h2 := hx.1
      unfold isSafeInteger at h2
      simp only [decide_eq_true_eq] at h2
      calc x.value.natAbs.div ((10 : Int) ^ (x.scale - n)).natAbs
          ≤ x.value.natAbs := Nat.div_le_self _ _
        _ ≤ 2 ^ 53 - 1 := h2
    · show isSafeInteger ((n : Nat) : Int) = true
      rw [isSafeInteger_natCast]
      have h2 := hx.2
      rw [isSafeInteger_natCast] at h2
      omega

/-- Witness for `invariant_preservation`: the `add` conjunct applied to the
concrete valid operands `(5, 0)` and `(3, 0)`. -/
theorem invariant_preservation_witness : (⟨8, 0⟩ : ScaledInteger).Valid :=
  invariant_preservation.2.2.2.2.1 ⟨5, 0⟩ ⟨3, 0⟩ ⟨8, 0⟩ (by decide) (by decide) (by decide)

/-- A non-empty group of digit characters, as matched by `[0-9]+`. -/
def IsDigits (cs : List Char) : Prop :=
  cs ≠ [] ∧ ∀ c ∈ cs, isDigitChar c = true

/-- Declarative reading of the anchored strict grammar
`sign? digits ('.' digits)?`: an optional single sign character, a mandatory
non-empty digit group, and an optional dot followed by a mandatory non-empty
digit group, with nothing else before or after. -/
def MatchesStrict (cs : List Char) : Prop :=
  ∃ sign major frac,
    (sign = [] ∨ sign = ['+'] ∨ sign = ['-'])
    ∧ IsDigits major
    ∧ (frac = [] ∨ ∃ minor, IsDigits minor ∧ frac = '.' :: minor)
    ∧ cs = sign ++ major ++ frac

/-- Helper: `takeDigits` splits its input. -/
theorem takeDigits_eq (cs : List Char) : (takeDigits cs).1 ++ (takeDigits cs).2 = cs := by
  induction cs with
  | nil => rfl
  | cons c cs ih =>
    unfold takeDigits
    by_cases h : isDigitChar c <;> simp [h, ih]

/-- Helper: the first component of `takeDigits` is all digits. -/
theorem takeDigits_digits (cs : List Char) :
    ∀ c ∈ (takeDigits cs).1, isDigitChar c = true := by
  induction cs with
  | nil => intro c h; cases h
  | cons c cs ih =>
    intro d hd
    simp only [takeDigits] at hd
    by_cases h : isDigitChar c = true
    · rw [if_pos h] at hd
      rcases List.mem_cons.mp hd with rfl | hd2
      · exact h
      · exact ih d hd2
    · rw [if_neg h] at hd
      cases hd

/-- Helper: the remainder of `takeDigits` does not start with a digit. -/
theorem takeDigits_rest (cs : List Char) :
    ∀ d r, (takeDigits cs).2 = d :: r → isDigitChar d = false := by
  induction cs with
  | nil => intro d r h; cases h
  | cons c cs ih =>
    intro d r hd
    simp only [takeDigits] at hd
    by_cases h : isDigitChar c = true
    · rw [if_pos h] at hd
      exact ih d r hd
    · rw [if_neg h] at hd
      injection hd with h1 h2
      subst h1
      simpa using h

/-- Helper: `takeDigits` on a digit group followed by a non-digit boundary
returns exactly that split. -/
theorem takeDigits_of_append (ds rest : List Char)
    (hd : ∀ c ∈ ds, isDigitChar c = true)
    (hr : ∀ d r, rest = d :: r → isDigitChar d = false) :
    takeDigits (ds ++ rest) = (ds, rest) := by
  induction ds with
  | nil =>
    rcases rest with _ | ⟨d, r⟩
    · rfl
    · rw [List.nil_append]
      simp only [takeDigits]
      rw [hr d r rfl]
      simp
  | cons c ds ih =>
    rw [List.cons_append]
    simp only [takeDigits]
    rw [hd c (by simp), ih (fun d h => hd d (by simp [h]))]
    simp

/-- Helper: `splitSign` splits its input, and the sign group is empty or a
single sign character. -/
theorem splitSign_spec (cs : List Char) :
    cs = (splitSign cs).1 ++ (splitSign cs).2
    ∧ ((splitSign cs).1 = [] ∨ (splitSign cs).1 = ['+'] ∨ (splitSign cs).1 = ['-']) := by
  rcases cs with _ | ⟨c, cs⟩
  · exact ⟨rfl, Or.inl rfl⟩
  · simp only [splitSign]
    by_cases h : c = '-' ∨ c = '+'
    · rw [if_pos h]
      rcases h with rfl | rfl
      · exact ⟨rfl, Or.inr (Or.inr rfl)⟩
      · exact ⟨rfl, Or.inr (Or.inl rfl)⟩
    · rw [if_neg h]
      exact ⟨rfl, Or.inl rfl⟩

/-- Helper: a digit character is not a sign character. -/
theorem digit_not_sign {c : Char} (h : isDigitChar c = true) : ¬ (c = '-' ∨ c = '+') := by
  rintro (rfl | rfl) <;> exact absurd h (by decide)

/-- Helper: `splitSign` consumes a leading sign character. -/
theorem splitSign_sign (c : Char) (r : List Char) (h : c = '-' ∨ c = '+') :
    splitSign (c :: r) = ([c], r) := by
  simp only [splitSign]
  rw [if_pos h]

/-- Helper: `splitSign` leaves a leading digit in place. -/
theorem splitSign_nosign (c : Char) (r : List Char) (h : isDigitChar c = true) :
    splitSign (c :: r) = ([], c :: r) := by
  simp only [splitSign]
  rw [if_neg (digit_not_sign h)]

/-- Helper: a successful strict match certifies the declarative grammar. -/
theorem matchesStrict_of_some {cs : List Char} {g : DecGroups}
    (h : strictMatch cs = some g) : MatchesStrict cs := by
  unfold strictMatch at h
  dsimp only at h
  by_cases hmaj : (takeDigits (splitSign cs).2).1 = []
  · rw [if_pos hmaj] at h
    cases h
  · rw [if_neg hmaj] at h
    rcases hq2 : (takeDigits (splitSign cs).2).2 with _ | ⟨c, cs3⟩ <;> rw [hq2] at h <;>
      dsimp only at h
    · refine ⟨(splitSign cs).1, (takeDigits (splitSign cs).2).1, [],
        (splitSign_spec cs).2, ⟨hmaj, takeDigits_digits _⟩, Or.inl rfl, ?_⟩
      calc cs = (splitSign cs).1 ++ (splitSign cs).2 := (splitSign_spec cs).1
        _ = (splitSign cs).1
            ++ ((takeDigits (splitSign cs).2).1 ++ (takeDigits (splitSign cs).2).2) := by
              rw [takeDigits_eq]
        _ = (splitSign cs).1 ++ (takeDigits (splitSign cs).2).1 ++ [] := by
              rw [hq2]
              simp
    · by_cases hc : c = '.'
      · rw [if_pos hc] at h
        by_cases hmin : (takeDigits cs3).1 = []
        · rw [if_pos hmin] at h
          cases h
        · rw [if_neg hmin] at h
          by_cases hrest : (takeDigits cs3).2 = []
          · rw [if_pos hrest] at h
            subst hc
            refine ⟨(splitSign cs).1, (takeDigits (splitSign cs).2).1,
              '.' :: (takeDigits cs3).1, (splitSign_spec cs).2,
              ⟨hmaj, takeDigits_digits _⟩,
              Or.inr ⟨(takeDigits cs3).1, ⟨hmin, takeDigits_digits _⟩, rfl⟩, ?_⟩
            have h3 := takeDigits_eq cs3
            rw [hrest, List.append_nil] at h3
            calc cs = (splitSign cs).1 ++ (splitSign cs).2 := (splitSign_spec cs).1
              _ = (splitSign cs).1
                  ++ ((takeDigits (splitSign cs).2).1 ++ (takeDigits (splitSign cs).2).2) := by
                    rw [takeDigits_eq]
              _ = (splitSign cs).1 ++ (takeDigits (splitSign cs).2).1
                  ++ '.' :: (takeDigits cs3).1 := by
                    rw [hq2, h3]
                    simp
          · rw [if_neg hrest] at h
            cases h
      · rw [if_neg hc] at h
        cases h

/-- Helper: the groups of a successful strict match have the grammar's
shapes: a sign group that is empty or one sign character, a non-empty
all-digit major group, and an absent or non-empty all-digit minor group. -/
theorem strictMatch_groups {cs : List Char} {g : DecGroups}
    (h : strictMatch cs = some g) :
    (g.sign = [] ∨ g.sign = ['+'] ∨ g.sign = ['-'])
    ∧ IsDigits g.major
    ∧ (g.minor = none ∨ ∃ m, g.minor = some m ∧ IsDigits m) := by
  unfold strictMatch at h
  dsimp only at h
  by_cases hmaj : (takeDigits (splitSign cs).2).1 = []
  · rw [if_pos hmaj] at h
    cases h
  · rw [if_neg hmaj] at h
    rcases hq2 : (takeDigits (splitSign cs).2).2 with _ | ⟨c, cs3⟩ <;> rw [hq2] at h <;>
      dsimp only at h
    · injection h with h
      subst h
      exact ⟨(splitSign_spec cs).2, ⟨hmaj, takeDigits_digits _⟩, Or.inl rfl⟩
    · by_cases hc : c = '.'
      · rw [if_pos hc] at h
        by_cases hmin : (takeDigits cs3).1 = []
        · rw [if_pos hmin] at h
          cases h
        · rw [if_neg hmin] at h
          by_cases hrest : (takeDigits cs3).2 = []
          · rw [if_pos hrest] at h
            injection h with h
            subst h
            exact ⟨(splitSign_spec cs).2, ⟨hmaj, takeDigits_digits _⟩,
              Or.inr ⟨(takeDigits cs3).1, rfl, ⟨hmin, takeDigits_digits _⟩⟩⟩
          · rw [if_neg hrest] at h
            cases h
      · rw [if_neg hc] at h
        cases h

/-- Helper: a string in the declarative grammar is accepted by the strict
matcher. -/
theorem strictMatch_of_matches {cs : List Char} (h : MatchesStrict cs) :
    ∃ g, strictMatch cs = some g := by
  obtain ⟨sign, major, frac, hsign, ⟨hmne, hmd⟩, hfrac, rfl⟩ := h
  have hsplit : splitSign (sign ++ major ++ frac) = (sign, major ++ frac) := by
    rcases hsign with rfl | rfl | rfl
    · rcases major with _ | ⟨c, cs'⟩
      · exact absurd rfl hmne
      · rw [List.nil_append, List.cons_append]
        exact splitSign_nosign _ _ (hmd c (by simp))
    · rw [List.cons_append, List.nil_append, List.cons_append]
      exact splitSign_sign '+' _ (Or.inr rfl)
    · rw [List.cons_append, List.nil_append, List.cons_append]
      exact splitSign_sign '-' _ (Or.inl rfl)
  have hfr : ∀ d r, frac = d :: r → isDigitChar d = false := by
    rcases hfrac with rfl | ⟨minor, hmin, rfl⟩
    · intro d r hdr
      cases hdr
    · intro d r hdr
      injection hdr with h1 h2
      subst h1
      decide
  have htake : takeDigits (major ++ frac) = (major, frac) :=
    takeDigits_of_append _ _ hmd hfr
  unfold strictMatch
  dsimp only
  rw [hsplit]
  dsimp only
  rw [htake]
  dsimp only
  rw [if_neg hmne]
  rcases hfrac with rfl | ⟨minor, ⟨hminne, hmind⟩, rfl⟩
  · exact ⟨_, rfl⟩
  · dsimp only
    rw [if_pos rfl]
    have htake2 : takeDigits (minor ++ []) = (minor, []) :=
      takeDigits_of_append minor [] hmind (fun d r hdr => nomatch hdr)
    rw [List.append_nil] at htake2
    rw [htake2]
    dsimp only
    rw [if_neg hminne, if_pos rfl]
    exact ⟨_, rfl⟩

/-- Helper: the strict matcher rejects exactly the strings outside the
declarative grammar. -/
theorem strictMatch_none_iff (cs : List Char) :
    strictMatch cs = none ↔ ¬ MatchesStrict cs := by
  constructor
  · intro h hm
    obtain ⟨g, hg⟩ := strictMatch_of_matches hm
    rw [h] at hg
    cases hg
  · intro h
    cases hsm : strictMatch cs with
    | none => rfl
    | some g => exact absurd (matchesStrict_of_some hsm) h

/-- The scale the claim assigns to an accepted strict parse: 0 when the
trimmed fractional part is zero, else the length of the fractional digits
after trailing-zero trimming. -/
def strictScaleOf (g : DecGroups) : Nat :=
  if digitsToNat (orZero (trimEnd (g.minor.getD []) '0')) = 0 then 0
  else (orZero (trimEnd (g.minor.getD []) '0')).length

/-- The magnitude the claim assigns to an accepted strict parse:
`major * 10^scale + minor`, negated when the sign is '-'. -/
def strictValueOf (g : DecGroups) : Int :=
  (if g.sign = ['-'] then -1 else 1)
    * ((digitsToNat (orZero (trimStart g.major '0')) : Int) * 10 ^ strictScaleOf g
        + (digitsToNat (orZero (trimEnd (g.minor.getD []) '0')) : Int))

/-- Claim C7: strict parse fails with the parse error exactly on strings
outside the anchored grammar `sign? digits ('.' digits)?`; on acceptance the
scale is 0 for a zero trimmed fraction and otherwise the trimmed fraction's
length, and the magnitude is `major * 10^scale + minor`, negated for '-';
in particular "0.10" parses to magnitude 1 at scale 1. -/
theorem parse_strict_grammar (s : String) :
    (ScaledInteger.parse s = .error .invalidDecimalString ↔ ¬ MatchesStrict s.data)
    ∧ (∀ (g : DecGroups) (x : ScaledInteger), strictMatch s.data = some g →
        ScaledInteger.parse s = .ok x →
        x.scale = strictScaleOf g ∧ x.value = strictValueOf g)
    ∧ ScaledInteger.parse "0.10" = .ok ⟨1, 1⟩ := by
  refine ⟨?_, ?_, by decide⟩
  · rw [← strictMatch_none_iff]
    unfold ScaledInteger.parse
    cases hsm : strictMatch s.data with
    | none => simp
    | some g =>
      dsimp only
      constructor
      · intro h
        exact absurd h (by unfold parseWithGroups; exact construct_ne_parse_error _ _)
      · intro h
        cases h
  · intro g x hsm hx
    unfold ScaledInteger.parse at hx
    rw [hsm] at hx
    dsimp only at hx
    unfold parseWithGroups at hx
    dsimp only at hx
    obtain ⟨rfl, hv, hs, hpos⟩ := construct_ok hx
    constructor
    · show (((if digitsToNat (orZero (trimEnd (g.minor.getD []) '0')) = 0 then 0
          else (orZero (trimEnd (g.minor.getD []) '0')).length : Nat) : Int)).toNat
        = strictScaleOf g
      rw [Int.toNat_natCast]
      rfl
    · show (if g.sign = ['-']
          then -((digitsToNat (orZero (trimStart g.major '0')) : Int)
            * 10 ^ (if digitsToNat (orZero (trimEnd (g.minor.getD []) '0')) = 0 then 0
                else (orZero (trimEnd (g.minor.getD []) '0')).length)
            + (digitsToNat (orZero (trimEnd (g.minor.getD []) '0')) : Int))
          else ((digitsToNat (orZero (trimStart g.major '0')) : Int)
            * 10 ^ (if digitsToNat (orZero (trimEnd (g.minor.getD []) '0')) = 0 then 0
                else (orZero (trimEnd (g.minor.getD []) '0')).length)
            + (digitsToNat (orZero (trimEnd (g.minor.getD []) '0')) : Int)))
        = strictValueOf g
      unfold strictValueOf strictScaleOf
      split_ifs <;> ring

/-- Witness for `parse_strict_grammar`: instantiated at the input "0.10",
whose strict match has groups sign = "", major = "0", minor = "10". -/
theorem parse_strict_grammar_witness :
    (⟨1, 1⟩ : ScaledInteger).scale = strictScaleOf ⟨[], ['0'], some ['1', '0']⟩
    ∧ (⟨1, 1⟩ : ScaledInteger).value = strictValueOf ⟨[], ['0'], some ['1', '0']⟩ :=
  (parse_strict_grammar "0.10").2.1 ⟨[], ['0'], some ['1', '0']⟩ ⟨1, 1⟩ (by decide) (by decide)

/-- Helper: a strict match is also a lax match with the same groups. -/
theorem laxMatch_of_strictMatch {cs : List Char} {g : DecGroups}
    (h : strictMatch cs = some g) : laxMatch cs = some g := by
  unfold strictMatch at h
  unfold laxMatch
  dsimp only at h ⊢
  by_cases hmaj : (takeDigits (splitSign cs).2).1 = []
  · rw [if_pos hmaj] at h
    cases h
  · rw [if_neg hmaj] at h
    rcases hq2 : (takeDigits (splitSign cs).2).2 with _ | ⟨c, cs3⟩ <;> rw [hq2] at h <;>
      dsimp only at h ⊢
    · exact h
    · by_cases hc : c = '.'
      · rw [if_pos hc] at h ⊢
        by_cases hmin : (takeDigits cs3).1 = []
        · rw [if_pos hmin] at h
          cases h
        · rw [if_neg hmin] at h
          by_cases hrest : (takeDigits cs3).2 = []
          · rw [if_pos hrest] at h ⊢
            exact h
          · rw [if_neg hrest] at h
            cases h
      · rw [if_neg hc] at h
        cases h

/-- Helper: the head of a surviving `dropWhile` fails the predicate. -/
theorem dropWhile_head_false {α : Type} (p : α → Bool) (l : List α) (d : α) (r : List α)
    (h : l.dropWhile p = d :: r) : p d = false := by
  induction l with
  | nil => cases h
  | cons a l ih =>
    rw [List.dropWhile_cons] at h
    split at h
    · exact ih h
    · injection h with h1 h2
      subst h1
      rename_i hp
      simpa using hp

/-- Helper: appending a final digit multiplies the accumulated value by ten. -/
theorem digitsToNat_append_last (l : List Char) (d : Char) :
    digitsToNat (l ++ [d]) = digitsToNat l * 10 + (d.toNat - 48) := by
  unfold digitsToNat
  rw [List.foldl_append]
  rfl

/-- Helper: a character with code 48 is the digit zero. -/
theorem char_of_toNat_48 {d : Char} (h : d.toNat = 48) : d = '0' := by
  apply Char.ext
  apply UInt32.ext
  simpa using h

/-- Helper: when the trimmed fractional digit group evaluates to zero, the
`|| '0'` fallback must have produced the literal single zero digit: a
non-empty trimmed group of digits ends in a non-zero digit and therefore has
a non-zero value. -/
theorem trimEnd_minor_zero (m : List Char) (hm : ∀ c ∈ m, isDigitChar c = true)
    (h0 : digitsToNat (orZero (trimEnd m '0')) = 0) :
    orZero (trimEnd m '0') = ['0'] := by
  rcases he : trimEnd m '0' with _ | ⟨c0, rest⟩
  · unfold orZero
    rw [if_pos rfl]
  · exfalso
    have hl : orZero (trimEnd m '0') = c0 :: rest := by
      rw [he]
      unfold orZero
      simp
    rw [hl] at h0
    have hne : c0 :: rest ≠ [] := by simp
    obtain ⟨l', d, hld⟩ : ∃ l' d, c0 :: rest = l' ++ [d] :=
      ⟨(c0 :: rest).dropLast, (c0 :: rest).getLast hne,
        (List.dropLast_append_getLast hne).symm⟩
    have hsub : (trimEnd m '0').Sublist m := by
      unfold trimEnd
      have h1 := List.dropWhile_sublist (l := m.reverse) (fun c => c = '0')
      have h2 := h1.reverse
      rwa [List.reverse_reverse] at h2
    have hdm : d ∈ m := by
      apply hsub.subset
      rw [he, hld]
      simp
    have hrev : m.reverse.dropWhile (fun c => c = '0') = d :: l'.reverse := by
      have hrr : (trimEnd m '0').reverse = m.reverse.dropWhile (fun c => c = '0') := by
        unfold trimEnd
        rw [List.reverse_reverse]
      rw [he, hld, List.reverse_append] at hrr
      simpa using hrr.symm
    have hd0 := dropWhile_head_false (fun c => decide (c = '0')) m.reverse d l'.reverse hrev
    have hdne : d ≠ '0' := by simpa using hd0
    have hdd := hm d hdm
    have hbound : 48 ≤ d.toNat ∧ d.toNat ≤ 57 := by
      unfold isDigitChar at hdd
      constructor
      · have := (Bool.and_eq_true _ _).mp hdd
        simpa using this.1
      · have := (Bool.and_eq_true _ _).mp hdd
        simpa using this.2
    have hd48 : d.toNat ≠ 48 := fun hc => hdne (char_of_toNat_48 hc)
    rw [hld, digitsToNat_append_last] at h0
    omega

/-- Helper: an instance and its widened-by-powers-of-ten form are equal under
the class's `equal`. -/
theorem equal_of_widen (v w : Int) (s t : Nat) (hst : s ≤ t)
    (hw : w = v * 10 ^ (t - s)) :
    ScaledInteger.equal ⟨v, s⟩ ⟨w, t⟩ = true := by
  unfold ScaledInteger.equal ScaledInteger.unsafelyGetRelativeValue
  dsimp only
  rw [if_neg (by omega), hw]
  exact beq_self_eq_true _

/-- Claim C9 (counterexample): lax parsing is not a superset of strict
parsing: on the maximal safe integer string, strict parse succeeds at scale
0, but lax parse forces `minorStr = "0"` (scale 1) and multiplies the
magnitude by ten, leaving the safe range, so it fails. -/
theorem parseLax_not_superset :
    ScaledInteger.parse "9007199254740991" = .ok ⟨9007199254740991, 0⟩
    ∧ ScaledInteger.parseLax "9007199254740991" = .error .unsafeIntegerValue := by
  decide

/-- Claim C9 (amended): on every string accepted by both strict and lax
parsing, the lax scale is at least the strict scale and the two results are
value-equal under `equal`; lax parsing can however reject strings that
strict parsing accepts, when the magnitude re-expressed at the (larger) lax
scale leaves the safe-integer range. -/
theorem parseLax_superset_amended (s : String) (a b : ScaledInteger)
    (ha : ScaledInteger.parse s = .ok a) (hb : ScaledInteger.parseLax s = .ok b) :
    a.scale ≤ b.scale ∧ ScaledInteger.equal a b = true := by
  unfold ScaledInteger.parse at ha
  cases hsm : strictMatch s.data with
  | none =>
    rw [hsm] at ha
    cases ha
  | some g =>
    rw [hsm] at ha
    have hlm := laxMatch_of_strictMatch hsm
    unfold ScaledInteger.parseLax at hb
    rw [hlm] at hb
    dsimp only at ha hb
    unfold parseWithGroups at ha hb
    dsimp only at ha hb
    obtain ⟨rfl, hva, -, -⟩ := construct_ok ha
    obtain ⟨rfl, hvb, -, -⟩ := construct_ok hb
    by_cases h0 : digitsToNat (orZero (trimEnd (g.minor.getD []) '0')) = 0
    · have hms : orZero (trimEnd (g.minor.getD []) '0') = ['0'] := by
        apply trimEnd_minor_zero
        · rcases (strictMatch_groups hsm).2.2 with hnone | ⟨m, hm, hmd⟩
          · rw [hnone]
            intro c hc
            cases hc
          · rw [hm]
            exact hmd.2
        · exact h0
      rw [if_pos h0, h0, hms]
      constructor
      · simp
      · apply equal_of_widen
        · simp
        · simp only [Int.toNat_natCast, List.length_cons, List.length_nil, Nat.sub_zero,
            Nat.cast_zero]
          split_ifs <;> push_cast <;> ring
    · rw [if_neg h0]
      constructor
      · simp
      · apply equal_of_widen
        · simp
        · simp only [Nat.sub_self, pow_zero, mul_one]

/-- Witness for `parseLax_superset_amended` at the input "1.0": strict gives
magnitude 1 at scale 0, lax gives magnitude 10 at scale 1, and the two are
value-equal. -/
theorem parseLax_superset_amended_witness :
    (⟨1, 0⟩ : ScaledInteger).scale ≤ (⟨10, 1⟩ : ScaledInteger).scale
    ∧ ScaledInteger.equal ⟨1, 0⟩ ⟨10, 1⟩ = true :=
  parseLax_superset_amended "1.0" ⟨1, 0⟩ ⟨10, 1⟩ (by decide) (by decide)
